import Mathlib

/-!
Shallow embedding of the Illimat rules-engine core (the C# sources under
`Illimat.Core`): card and pile primitives, the pile-value algebra, the
field index `PileSetsByValue`, the subset / Cartesian-product generators,
and the reversible actions (`SeedField`, `InitialDeal`, `BeginTurn`,
`EndTurn`, `ChangeSeason`).  The theorems at the end check the
specification's claims against these definitions.
-/

namespace IllimatSpec

/-- The thirteen card ranks (`Illimat.Core.Models.Rank`, as enumerated by
`RankSet.AllRanks`). -/
inductive Rank where
  | two | three | four | five | six | seven | eight | nine | ten
  | knight | queen | king | fool
deriving DecidableEq, Repr

/-- Numeric value of a rank, the cast `(int)c.Rank` used by
`Pile.GetValues` on non-Fool cards.  The C# `Rank` enum declaration is not
among the sources; its backing values are fixed by the spec ("every rank
has exactly one value (2-13), except the Fool") and by
`RankExtensions.Values` (which lists the Fool as `{14, 1}`).
`GetValues` never casts a Fool, so the value chosen for `fool` is inert. -/
def rankValue : Rank → Nat
  | .two => 2
  | .three => 3
  | .four => 4
  | .five => 5
  | .six => 6
  | .seven => 7
  | .eight => 8
  | .nine => 9
  | .ten => 10
  | .knight => 11
  | .queen => 12
  | .king => 13
  | .fool => 14

/-- The five suits (`Illimat.Core.Models.Suit`). -/
inductive Suit where
  | spring | summer | autumn | winter | stars
deriving DecidableEq, Repr

/-- `Illimat.Core.Card`: a rank, a suit, and the mutable `IsRevealed`
flag. -/
structure Card where
  rank : Rank
  suit : Suit
  revealed : Bool
deriving DecidableEq, Repr

/-- The loop of `Pile.GetValues`:
`for (int i = 0; i < foolsCount * 13; i += 13)
   result.Add(othersSum + foolsCount + i);`. -/
def getValuesLoop (othersSum foolsCount i : Nat) : List Nat :=
  if i < foolsCount * 13 then
    (othersSum + foolsCount + i) :: getValuesLoop othersSum foolsCount (i + 13)
  else
    []
termination_by foolsCount * 13 - i
decreasing_by omega

/-- `Pile.GetValues()`: split the cards into non-Fools (summed via the
rank cast) and Fools (counted), then run the accumulation loop. -/
def getValues (cards : List Card) : List Nat :=
  let othersValues := (cards.filter (fun c => !(c.rank == Rank.fool))).map
    (fun c => rankValue c.rank)
  let othersSum := othersValues.sum
  let foolsCount := cards.length - othersValues.length
  getValuesLoop othersSum foolsCount 0

/-- `Illimat.Core.Pile`: the card list together with the `Values` list
fixed by the constructor (`Values = GetValues()`). -/
structure Pile where
  cards : List Card
  values : List Nat
deriving DecidableEq, Repr

/-- The `Pile(IList<Card> cards)` constructor. -/
def mkPile (cards : List Card) : Pile :=
  ⟨cards, getValues cards⟩

/-- `IListExtensions.GetSubsets`' inner while-loop for one `count`: walk
`rs` over the indices of `list` and keep `list[rs]` whenever bit `rs` of
`count` is set. -/
def subsetOf (l : List α) (count : Nat) : List α :=
  (List.range l.length).filterMap
    (fun rs => if 0 < count &&& (1 <<< rs) then l[rs]? else none)

/-- `IListExtensions.GetSubsets`: one subset per `count` in
`[0, 2^list.Count)`. -/
def getSubsets (l : List α) : List (List α) :=
  (List.range (2 ^ l.length)).map (subsetOf l)

/-- One pass of the odometer `foreach (var slot in slots)` inside
`IEnumerableExtensions.Cartesian`.  A slot is its source list together
with the enumerator's current position.  `none` means the pass reached
the last slot without being able to advance it, i.e. the generator
executes `yield break`.  On an empty slot array the pass does nothing
and the surrounding `while (true)` continues. -/
def stepSlots : List (List α × Nat) → Option (List (List α × Nat))
  | [] => some []
  | (l, p) :: rest =>
    if p + 1 < l.length then
      some ((l, p + 1) :: rest)
    else
      match rest with
      | [] => none
      | _ :: _ =>
        match stepSlots rest with
        | some rest' => some ((l, 0) :: rest')
        | none => none

/-- `slots.Select(x => x.Current)`: the combination read off the current
slot positions. -/
def currents (slots : List (List α × Nat)) : List α :=
  slots.filterMap (fun s => s.1[s.2]?)

/-- The `while (true)` loop of `IEnumerableExtensions.Cartesian`, run for
`fuel` iterations: the list of yielded combinations together with a flag
recording whether the generator terminated (`yield break`) within that
budget. -/
def cartesianRun (fuel : Nat) (slots : List (List α × Nat)) :
    List (List α) × Bool :=
  match fuel with
  | 0 => ([], false)
  | n + 1 =>
    let out := currents slots
    match stepSlots slots with
    | none => ([out], true)
    | some slots' =>
      let r := cartesianRun n slots'
      (out :: r.1, r.2)

/-- The slot initialisation of `Cartesian`:
`items.Select(x => x.GetEnumerator()).Where(x => x.MoveNext()).ToArray()`
keeps exactly the non-empty sources, each positioned on its first
element. -/
def slotsInit (lists : List (List α)) : List (List α × Nat) :=
  (lists.filter (fun l => !l.isEmpty)).map (fun l => (l, 0))

/-- Association-list lookup standing for `Dictionary.TryGetValue` /
the indexer getter. -/
def lookupIdx (m : List (Nat × β)) (k : Nat) : Option β :=
  (m.find? (fun e => e.1 == k)).map (fun e => e.2)

/-- Replace the value stored under key `k` (the bucket object is mutated
in place in the C# code, so the key set never changes). -/
def updateIdx (m : List (Nat × β)) (k : Nat) (b : β) : List (Nat × β) :=
  m.map (fun e => if e.1 == k then (e.1, b) else e)

/-- The map type of `Field.PileSetsByValue`:
value `→` list of pile subsets. -/
abbrev PileIndex := List (Nat × List (List Pile))

/-- Innermost loop of `Field.AddPile`: for each `value` of the new pile,
execute `PileSetsByValue[pileSets.Key + value] ??= new ...` followed by
`.Add(newPileSet)`.  The compound assignment reads the indexer first, so
a key that is not yet present throws `KeyNotFoundException`, modelled as
`none`. -/
def addForValues (key : Nat) (newPileSet : List Pile) (vals : List Nat)
    (m : PileIndex) : Option PileIndex :=
  vals.foldlM
    (fun m v =>
      match lookupIdx m (key + v) with
      | some sets => some (updateIdx m (key + v) (sets ++ [newPileSet]))
      | none => none)
    m

/-- Middle loop of `Field.AddPile`: extend every subset currently stored
under `key` with the new pile. -/
def addForSubsets (key : Nat) (p : Pile) (sets : List (List Pile))
    (m : PileIndex) : Option PileIndex :=
  sets.foldlM (fun m pileSet => addForValues key (pileSet ++ [p]) p.values m) m

/-- Outer loop of `Field.AddPile`: iterate over the entries of
`PileSetsByValue`.  The key set cannot change during the iteration
(a structural change would have thrown first), so the entries are walked
by key, reading each bucket from the current map. -/
def addPileGo (p : Pile) (keys : List Nat) (m : PileIndex) :
    Option PileIndex :=
  keys.foldlM
    (fun m key =>
      match lookupIdx m key with
      | some sets => addForSubsets key p sets m
      | none => none)
    m

/-- `Illimat.Core.Field`, restricted to the data the claims touch:
the pile list and the `PileSetsByValue` index. -/
structure Field where
  piles : List Pile
  pileSetsByValue : PileIndex
deriving DecidableEq, Repr

/-- `Field.AddPile(pile)`: append the pile to `Piles`, then extend the
existing index entries (`none` models the exception paths). -/
def addPile (f : Field) (p : Pile) : Option Field :=
  (addPileGo p (f.pileSetsByValue.map (fun e => e.1)) f.pileSetsByValue).map
    (fun m => { piles := f.piles ++ [p], pileSetsByValue := m })

/-- The state touched by `SeedField`: the card deck (front = next draw)
and the target field's pile list (a pile is just its card list here;
the derived `Values` play no part in `SeedField`). -/
structure SFState where
  deck : List Card
  piles : List (List Card)
deriving DecidableEq, Repr

/-- The `for (int i = 0; ...)` body of `SeedField.Perform` applied to the
drawn cards: `Cards[i].IsRevealed = i < RevealedCount` with `i` counting
from `start`. -/
def markFrom (revealedCount start : Nat) : List Card → List Card
  | [] => []
  | c :: cs =>
    { c with revealed := decide (start < revealedCount) } ::
      markFrom revealedCount (start + 1) cs

/-- `SeedField.Perform`: draw up to `RevealedCount` cards from the front
of the deck (`Deck.DrawUpTo`), mark each drawn card
`IsRevealed = i < RevealedCount`, and append each as a singleton pile.
Returns the new state together with the action's saved `Cards` list.
`hiddenCount` is the `HiddenCount` constructor argument, which
`Perform` never reads. -/
def seedFieldPerform (revealedCount hiddenCount : Nat) (s : SFState) :
    SFState × List Card :=
  let _ := hiddenCount
  let drawn := markFrom revealedCount 0 (s.deck.take revealedCount)
  ({ deck := s.deck.drop revealedCount,
     piles := s.piles ++ drawn.map (fun c => [c]) },
   drawn)

/-- `Field.Piles.Where(x => x.Cards.Contains(card)).Single()` followed by
`Remove`: defined only when exactly one pile contains the card. -/
def removeSinglePile (c : Card) (piles : List (List Card)) :
    Option (List (List Card)) :=
  match piles.filter (fun p => decide (c ∈ p)) with
  | [_] => some (piles.eraseP (fun p => decide (c ∈ p)))
  | _ => none

/-- One iteration of the `foreach (Card card in reversedCards)` loop of
`SeedField.Unwind`: remove the unique pile holding the card, clear its
revealed flag, and push it back onto the front of the deck. -/
def seedFieldUnwindStep (s : SFState) (c : Card) : Option SFState :=
  match removeSinglePile c s.piles with
  | some piles' =>
    some { deck := { c with revealed := false } :: s.deck, piles := piles' }
  | none => none

/-- `SeedField.Unwind`: replay the saved `Cards` in reverse draw order. -/
def seedFieldUnwind (drawn : List Card) (s : SFState) : Option SFState :=
  drawn.reverse.foldlM seedFieldUnwindStep s

/-- The identity of a card irrespective of its mutable revealed flag;
the deck construction guarantees one card per (rank, suit) pair. -/
def cardKey (c : Card) : Rank × Suit :=
  (c.rank, c.suit)

/-- The actions the embedded composite / turn actions enqueue onto
`Game.PendingActions`, identified by the player or field index they were
constructed with. -/
inductive ActionD where
  | seedField (fieldIdx : Nat)
  | dealHand (playerIdx cardCount : Nat)
  | placeOkus (playerIdx : Nat)
  | dealLuminary (fieldIdx : Nat)
  | beginTurn (playerIdx : Nat)
  | scoreRound
deriving DecidableEq, Repr

/-- The scan loop of `EndTurn.Perform`:
`for (int i = 1; i < gameState.Players.Count - 1; i++)` over the hands
of the players, enqueueing `BeginTurn` for the first non-empty hand
found and stopping there. -/
def endTurnGo (hands : List (List Card)) (active i : Nat) : List ActionD :=
  if i < hands.length - 1 then
    let idx := (active + i) % hands.length
    if 0 < (hands.getD idx []).length then
      [ActionD.beginTurn idx]
    else
      endTurnGo hands active (i + 1)
  else
    []
termination_by hands.length - 1 - i
decreasing_by omega

/-- `EndTurn.Perform`: run the scan loop, then (unconditionally, after
the loop or the `break`) enqueue `ScoreRound`.  Returns the sequence of
enqueued actions. -/
def endTurnPerform (hands : List (List Card)) (active : Nat) : List ActionD :=
  endTurnGo hands active 1 ++ [ActionD.scoreRound]

/-- The slice of `GameState`/`Game` that `InitialDeal.Perform` can see:
the board always has exactly four fields (`Fields` is a `Field[4]`), so
only the players, the hands/deck (to witness that they are not touched)
and the pending queue are kept. -/
structure DealState where
  players : List Nat
  hands : List (List Card)
  deck : List Card
  pending : List ActionD
deriving DecidableEq, Repr

/-- `InitialDeal.Perform`: enqueue `SeedField` for each of the four
fields, then the `DealHand` actions guarded by the player count (player
1 gets 3 cards, players 2 and 3 get 4, the dealer — player 0 — is dealt
last), then one `PlaceOkus` per player, then one `DealLuminary` per
field.  Nothing else in the state is modified. -/
def initialDealPerform (gs : DealState) : DealState :=
  let seedActs := (List.range 4).map ActionD.seedField
  let dealActs :=
    (if 2 ≤ gs.players.length then [ActionD.dealHand 1 3] else []) ++
    (if 3 ≤ gs.players.length then [ActionD.dealHand 2 4] else []) ++
    (if gs.players.length = 4 then [ActionD.dealHand 3 4] else []) ++
    [ActionD.dealHand 0 4]
  let okusActs := (List.range gs.players.length).map ActionD.placeOkus
  let lumActs := (List.range 4).map ActionD.dealLuminary
  { gs with pending := gs.pending ++ seedActs ++ dealActs ++ okusActs ++ lumActs }

/-- `List.IndexOf`: first index of the element, `-1` when absent.
Players are identified by opaque handles. -/
def indexOfPlayer (players : List Nat) (p : Nat) : Int :=
  match players.findIdx? (fun q => q == p) with
  | some i => (i : Int)
  | none => -1

/-- `BeginTurn.Perform`: `ActivePlayerIndex = Players.IndexOf(actor)`. -/
def beginTurnPerform (players : List Nat) (p : Nat) : Int :=
  indexOfPlayer players p

/-- `BeginTurn.Unwind`:
`ActivePlayerIndex = (Players.IndexOf(actor) - 1) % Players.Count`,
where `%` is the C# remainder (truncated division, `Int.tmod`). -/
def beginTurnUnwind (players : List Nat) (p : Nat) : Int :=
  (indexOfPlayer players p - 1).tmod players.length

/-- The four seasons (`Illimat.Core.Models.Season`).  The enum
declaration is not among the sources; the backing values `0..3` in ring
order Spring → Summer → Autumn → Winter are fixed by the spec and by the
field initialisation order in `GameState`. -/
inductive Season where
  | spring | summer | autumn | winter
deriving DecidableEq, Repr

/-- The cast `(int)season`. -/
def seasonToNat : Season → Nat
  | .spring => 0
  | .summer => 1
  | .autumn => 2
  | .winter => 3

/-- The cast `(Season)(n % 4)`. -/
def seasonOfNat : Nat → Season
  | 0 => .spring
  | 1 => .summer
  | 2 => .autumn
  | _ => .winter

/-- The state touched by `ChangeSeason`: the seasons of the four fields
and `GameState.IllimatLockers` (a `List<IActor>`; `Add` appends,
`Remove` deletes the first occurrence). -/
structure CSState where
  seasons : List Season
  lockers : List Nat
deriving DecidableEq, Repr

/-- An instance of the `ChangeSeason` action, including its private
mutable `PreviousSeason` field (C# default-initialised to `(Season)0`). -/
structure CSAction where
  actor : Nat
  season : Season
  fieldIndex : Nat
  lockIllimat : Bool
  prevSeason : Season
deriving DecidableEq, Repr

/-- `ChangeSeason.AlignSeasons`: for `i` in `0..3`, set
`Fields[(FieldIndex + i) % 4].Season = (Season)(((int)season + i) % 4)`. -/
def alignSeasons (fieldIndex : Nat) (season : Season)
    (seasons : List Season) : List Season :=
  (List.range 4).foldl
    (fun ss i =>
      ss.set ((fieldIndex + i) % 4) (seasonOfNat ((seasonToNat season + i) % 4)))
    seasons

/-- `ChangeSeason.Perform`: when no locker is active, record the target
field's current season as `PreviousSeason` and realign unless already
aligned; in every case, a locking action appends its actor to the
lockers.  Returns the updated action instance and state. -/
def csPerform (a : CSAction) (s : CSState) : CSAction × CSState :=
  if s.lockers = [] then
    let prev := s.seasons.getD a.fieldIndex Season.spring
    let seasons' :=
      if prev = a.season then s.seasons
      else alignSeasons a.fieldIndex a.season s.seasons
    let lockers' := if a.lockIllimat then s.lockers ++ [a.actor] else s.lockers
    ({ a with prevSeason := prev }, { seasons := seasons', lockers := lockers' })
  else
    let lockers' := if a.lockIllimat then s.lockers ++ [a.actor] else s.lockers
    (a, { s with lockers := lockers' })

/-- `ChangeSeason.Unwind`: a locking action removes its actor from the
lockers; then, only if the lockers are now empty and the target season
differed from the recorded previous season, realign back to the previous
season. -/
def csUnwind (a : CSAction) (s : CSState) : CSState :=
  let lockers' := if a.lockIllimat then s.lockers.erase a.actor else s.lockers
  if lockers' = [] ∧ ¬(a.season = a.prevSeason) then
    { seasons := alignSeasons a.fieldIndex a.prevSeason s.seasons,
      lockers := lockers' }
  else
    { s with lockers := lockers' }

/-- A concrete 4-player game-state slice used to instantiate the
`InitialDeal` theorem. -/
def dealDemo : DealState :=
  ⟨[5, 6, 7, 8], [], [], []⟩

/-- A concrete board with the fields aligned and no lock held. -/
def csDemoState : CSState :=
  ⟨[Season.spring, Season.summer, Season.autumn, Season.winter], []⟩

/-- First locking `ChangeSeason` action (actor 1). -/
def csDemoA1 : CSAction :=
  ⟨1, Season.winter, 0, true, Season.spring⟩

/-- Second locking `ChangeSeason` action (actor 2). -/
def csDemoA2 : CSAction :=
  ⟨2, Season.winter, 0, true, Season.spring⟩

/-- A third actor's non-locking `ChangeSeason` attempt. -/
def csDemoA3 : CSAction :=
  ⟨3, Season.summer, 1, false, Season.spring⟩

/-- Closed form of `getValuesLoop`: starting the counter at `13 * j` with
`j ≤ k` produces one entry per remaining iteration, i.e. `k - j`
entries. -/
theorem getValuesLoop_closed (s k : Nat) : ∀ (n j : Nat), k - j = n →
    getValuesLoop s k (13 * j) =
      (List.range (k - j)).map (fun t => s + k + 13 * (j + t)) := by
  intro n
  induction n with
  | zero =>
    intro j hj
    rw [getValuesLoop, if_neg (by omega)]
    rw [hj]
    simp
  | succ n ih =>
    intro j hj
    rw [getValuesLoop, if_pos (by omega)]
    have h13 : 13 * j + 13 = 13 * (j + 1) := by ring
    rw [h13, ih (j + 1) (by omega)]
    have hrange : k - j = (k - (j + 1)) + 1 := by omega
    rw [hrange, List.range_succ_eq_map]
    simp only [List.map_cons, List.map_map]
    congr 1
    apply List.map_congr_left
    intro t _
    simp only [Function.comp_apply]
    omega

/-- `getValuesLoop` from `i = 0` yields exactly `foolsCount` entries. -/
theorem getValuesLoop_zero (s k : Nat) :
    getValuesLoop s k 0 = (List.range k).map (fun t => s + k + 13 * t) := by
  have h := getValuesLoop_closed s k k 0 (by omega)
  simpa using h

/-- Claim C1.  The claim asserts `GetValues` returns the `k+1` values
`{s+k, …, s+14k}` — but the loop bound `i < foolsCount * 13` runs only
`k` iterations, so a zero-Fool pile gets no value at all (not `[s]`),
`[Fool]` yields `[1]` (not `[1, 14]`), and `[2, Fool]` yields `[3]`
(not `[3, 16]`); the `Values` fixed at pile construction agree. -/
theorem getValues_runs_short :
    getValues [⟨Rank.fool, Suit.spring, true⟩] = [1] ∧
    getValues [⟨Rank.two, Suit.spring, true⟩] = [] ∧
    getValues [⟨Rank.two, Suit.spring, true⟩, ⟨Rank.fool, Suit.spring, true⟩]
      = [3] ∧
    (mkPile [⟨Rank.fool, Suit.spring, true⟩]).values = [1] := by
  refine ⟨?_, ?_, ?_, ?_⟩ <;>
    simp [getValues, mkPile, getValuesLoop_zero, rankValue, List.range_succ]

/-- The odometer pass over an empty slot array does nothing, so the
generator loop never breaks: `fuel` iterations yield `fuel` copies of
the empty combination and the run never finishes. -/
theorem cartesianRun_nil (fuel : Nat) :
    cartesianRun fuel ([] : List (List Nat × Nat)) =
      (List.replicate fuel [], false) := by
  induction fuel with
  | zero => rfl
  | succ n ih => simp [cartesianRun, currents, stepSlots, ih, List.replicate_succ]

/-- Subset number `0` of `GetSubsets` selects no indices. -/
theorem subsetOf_zero (l : List α) : subsetOf l 0 = [] := by
  simp [subsetOf, Nat.zero_and]

/-- `GetSubsets` yields the empty subset first. -/
theorem getSubsets_head (l : List α) : (getSubsets l).head? = some [] := by
  obtain ⟨k, hk⟩ : ∃ k, 2 ^ l.length = k + 1 :=
    ⟨2 ^ l.length - 1, by have := Nat.one_le_two_pow (n := l.length); omega⟩
  rw [getSubsets, hk, List.range_succ_eq_map]
  simp [subsetOf_zero]

/-- Claim C2.  `GetPilesSetsValues` never actually produces a map: the
subset enumeration always yields the empty subset first (`count = 0`),
the `Where(x => x.MoveNext())` filter leaves no slots for it, and the
product generator then yields the empty combination (summing to `0`)
forever, so the recording loop over `subsetValues` never finishes and
there is no returned map to be sound or complete. -/
theorem getPilesSetsValues_no_map :
    ∀ (piles : List Pile) (fuel : Nat),
      (getSubsets piles).head? = some [] ∧
      (cartesianRun fuel (slotsInit (([] : List Pile).map Pile.values))).2
        = false ∧
      ((cartesianRun fuel (slotsInit (([] : List Pile).map Pile.values))).1.map
          List.sum
        = List.replicate fuel 0) := by
  intro piles fuel
  refine ⟨getSubsets_head piles, ?_, ?_⟩ <;>
    simp [slotsInit, cartesianRun_nil, List.map_replicate]

/-- Claim C3.  `GetSubsets` does enumerate exactly `2^n` subsets, but the
Cartesian product of the empty subset's value lists is not a finite
sequence: with no slots the generator never executes `yield break`, so
for every fuel bound it has produced `fuel` empty combinations and is
still running — `GetPilesSetsValues` therefore never terminates. -/
theorem cartesian_empty_subset_diverges :
    (∀ (l : List Pile), (getSubsets l).length = 2 ^ l.length) ∧
    (∀ fuel : Nat,
      cartesianRun fuel (slotsInit ([] : List (List Nat))) =
        (List.replicate fuel [], false)) := by
  constructor
  · intro l
    simp [getSubsets]
  · intro fuel
    simp [slotsInit, cartesianRun_nil]

/-- Claim C4.  `AddPile` only extends entries already present in
`PileSetsByValue` and never seeds a singleton entry for the new pile, so
starting from the empty index the index stays empty: adding the first
pile leaves no entry under any of its values (witnessed with a pile
whose `Values` list is the non-empty `[1]`). -/
theorem addPile_seeds_nothing :
    (∀ (piles : List Pile) (p : Pile),
      addPile ⟨piles, []⟩ p = some ⟨piles ++ [p], []⟩) ∧
    (mkPile [⟨Rank.fool, Suit.autumn, true⟩]).values = [1] ∧
    (addPile ⟨[], []⟩ (mkPile [⟨Rank.fool, Suit.autumn, true⟩])).map
        (fun f => lookupIdx f.pileSetsByValue 1) = some none := by
  refine ⟨?_, ?_, ?_⟩
  · intro piles p
    simp [addPile, addPileGo]
  · simp [mkPile, getValues, getValuesLoop_zero, List.range_succ]
  · simp [addPile, addPileGo, lookupIdx]

/-- Claim C5.  The scan loop `for (int i = 1; i < Players.Count - 1; …)`
stops one player short: with four players only the offsets `1` and `2`
are examined, so a non-empty hand at the counter-clockwise neighbour
(offset `3`) is never found; and `ScoreRound` is enqueued
unconditionally after the loop, so finding a next player enqueues both
a `BeginTurn` and a `ScoreRound`. -/
theorem endTurn_skips_last_and_always_scores :
    endTurnPerform [[], [], [], [⟨Rank.two, Suit.spring, true⟩]] 0
      = [ActionD.scoreRound] ∧
    endTurnPerform [[], [⟨Rank.two, Suit.spring, true⟩], [], []] 0
      = [ActionD.beginTurn 1, ActionD.scoreRound] := by
  constructor <;>
    simp [endTurnPerform, endTurnGo.eq_def]

/-- Claim C6.  `BeginTurn.Unwind` computes
`(Players.IndexOf(actor) - 1) % Players.Count` with the C# truncated
remainder, so unwinding a turn of the player at index `0` of a 4-player
game sets `ActivePlayerIndex = -1`, outside `[0, Players.Count)`. -/
theorem beginTurn_unwind_breaks_invariant :
    beginTurnUnwind [10, 11, 12, 13] 10 = -1 ∧
    ¬(0 ≤ beginTurnUnwind [10, 11, 12, 13] 10 ∧
      beginTurnUnwind [10, 11, 12, 13] 10 <
        (([10, 11, 12, 13] : List Nat).length : Int)) := by
  refine ⟨?_, ?_⟩ <;> decide

/-- `markFrom` with every index below the bound reveals each card. -/
theorem markFrom_eq_map (rc : Nat) :
    ∀ (cs : List Card) (start : Nat), start + cs.length ≤ rc →
      markFrom rc start cs =
        cs.map (fun c => { c with revealed := true }) := by
  intro cs
  induction cs with
  | nil => intro start _; rfl
  | cons c cs ih =>
    intro start h
    simp only [List.length_cons] at h
    have hs : start < rc := by omega
    simp [markFrom, hs, ih (start + 1) (by omega)]

/-- Claim C10.  `SeedField.Perform` never reads `HiddenCount`: any two
hidden-count arguments produce identical results; exactly
`min(RevealedCount, deck size)` cards are drawn, every drawn card is
marked revealed, each is placed as a singleton pile, and the deck loses
its first `RevealedCount` cards — no face-down card is ever seeded. -/
theorem seedField_ignores_hiddenCount :
    ∀ (rc hc hc' : Nat) (s : SFState),
      seedFieldPerform rc hc s = seedFieldPerform rc hc' s ∧
      (seedFieldPerform rc hc s).2.length = min rc s.deck.length ∧
      ((seedFieldPerform rc hc s).2.all (fun c => c.revealed)) = true ∧
      (seedFieldPerform rc hc s).1.piles =
        s.piles ++ (seedFieldPerform rc hc s).2.map (fun c => [c]) ∧
      (seedFieldPerform rc hc s).1.deck = s.deck.drop rc := by
  intro rc hc hc' s
  have hmark : markFrom rc 0 (s.deck.take rc) =
      (s.deck.take rc).map (fun c => { c with revealed := true }) :=
    markFrom_eq_map rc (s.deck.take rc) 0
      (by have h := List.length_take_le rc s.deck; omega)
  refine ⟨rfl, ?_, ?_, rfl, rfl⟩
  · simp [seedFieldPerform, hmark]
  · simp only [seedFieldPerform, hmark, List.all_eq_true]
    intro c hc
    simp only [List.mem_map] at hc
    obtain ⟨c', _, rfl⟩ := hc
    rfl

/-- Removing the unique pile holding `c` from a pile list that ends in
the singleton `[c]`, none of whose other piles hold `c`. -/
theorem removeSinglePile_append (c : Card) (A : List (List Card))
    (h : ∀ q ∈ A, c ∉ q) : removeSinglePile c (A ++ [[c]]) = some A := by
  have h1 : A.filter (fun p => decide (c ∈ p)) = [] := by
    rw [List.filter_eq_nil_iff]
    intro q hq
    simpa using h q hq
  have h2 : ∀ q ∈ A, ¬((fun p => decide (c ∈ p)) q = true) := by
    intro q hq
    simpa using h q hq
  unfold removeSinglePile
  rw [List.filter_append, h1, List.nil_append]
  have h3 : ([[c]] : List (List Card)).filter (fun p => decide (c ∈ p))
      = [[c]] := by simp
  rw [h3]
  show some (List.eraseP (fun p => decide (c ∈ p)) (A ++ [[c]])) = some A
  rw [List.eraseP_append_right _ h2]
  simp

/-- Unwinding the cards appended by a seeding pass peels the singleton
piles off again and pushes the cards, unrevealed, back onto the deck in
their original order. -/
theorem seedFieldUnwind_appended (P : List (List Card)) :
    ∀ (cs : List Card) (D : List Card),
      (∀ c ∈ cs, c.revealed = false) →
      (cs.map cardKey).Nodup →
      (∀ c ∈ cs, ∀ q ∈ P, ∀ c' ∈ q, cardKey c ≠ cardKey c') →
      seedFieldUnwind (cs.map (fun c => { c with revealed := true }))
          ⟨D, P ++ (cs.map (fun c => { c with revealed := true })).map
            (fun c => [c])⟩
        = some ⟨cs ++ D, P⟩ := by
  intro cs
  induction cs using List.reverseRecOn with
  | nil =>
    intro D _ _ _
    simp [seedFieldUnwind]
  | append_singleton cs c ih =>
    intro D hrev hnodup hdisj
    have hrev' : ∀ x ∈ cs, x.revealed = false := fun x hx => hrev x (by simp [hx])
    have hrevc : c.revealed = false := hrev c (by simp)
    have hmapn : ((cs.map cardKey) ++ [cardKey c]).Nodup := by
      simpa using hnodup
    have hnodup' : (cs.map cardKey).Nodup := hmapn.of_append_left
    have hkeyc : cardKey c ∉ cs.map cardKey := by
      have hd := (List.nodup_append.mp hmapn).2.2
      intro hmem
      exact hd hmem (by simp)
    have hdisj' : ∀ x ∈ cs, ∀ q ∈ P, ∀ c' ∈ q, cardKey x ≠ cardKey c' :=
      fun x hx => hdisj x (by simp [hx])
    have hnotin : ∀ q ∈ P ++ (cs.map (fun x => { x with revealed := true })).map
        (fun x => [x]),
        ({ c with revealed := true } : Card) ∉ q := by
      intro q hq hmem
      rcases List.mem_append.mp hq with hqP | hqcs
      · exact hdisj c (by simp) q hqP _ hmem rfl
      · obtain ⟨y, hy, rfl⟩ := List.mem_map.mp hqcs
        obtain ⟨x, hx, rfl⟩ := List.mem_map.mp hy
        have hxc : ({ c with revealed := true } : Card)
            = { x with revealed := true } := by simpa using hmem
        have hkey : cardKey c = cardKey x := by
          have := congrArg cardKey hxc
          simpa [cardKey] using this
        exact hkeyc (hkey ▸ List.mem_map_of_mem cardKey hx)
    have hstep : seedFieldUnwindStep
        ⟨D, P ++ ((cs.map (fun x => { x with revealed := true })).map
          (fun x => [x]) ++ [[{ c with revealed := true }]])⟩
        { c with revealed := true }
        = some ⟨c :: D, P ++ (cs.map (fun x => { x with revealed := true })).map
            (fun x => [x])⟩ := by
      have hpiles : P ++ ((cs.map (fun x => { x with revealed := true })).map
            (fun x => [x]) ++ [[{ c with revealed := true }]])
          = (P ++ (cs.map (fun x => { x with revealed := true })).map
              (fun x => [x])) ++ [[{ c with revealed := true }]] := by
        rw [List.append_assoc]
      unfold seedFieldUnwindStep
      rw [hpiles, removeSinglePile_append _ _ hnotin]
      have hcard : ({ rank := c.rank, suit := c.suit, revealed := false } : Card)
          = c := by
        cases c with
        | mk r s b =>
          simp only [Card.mk.injEq, and_true, true_and]
          simpa using hrevc.symm
      simp [hcard]
    unfold seedFieldUnwind
    simp only [List.map_append, List.map_cons, List.map_nil,
      List.reverse_append, List.reverse_cons, List.reverse_nil,
      List.nil_append, List.singleton_append]
    rw [List.foldlM_cons, hstep]
    simp only [Option.bind_eq_bind, Option.some_bind]
    have hrest := ih (c :: D) hrev' hnodup' hdisj'
    unfold seedFieldUnwind at hrest
    rw [hrest]
    simp

/-- Claim C7.  When each drawn card exists nowhere else (single owner)
and starts unrevealed, `SeedField.Perform` followed by
`SeedField.Unwind` restores the field's piles, the deck order, and every
revealed flag exactly. -/
theorem seedField_roundtrip (rc hc : Nat) (s : SFState)
    (hrev : ∀ c ∈ s.deck.take rc, c.revealed = false)
    (howner : ((s.deck.map cardKey) ++ (s.piles.flatten.map cardKey)).Nodup) :
    seedFieldUnwind (seedFieldPerform rc hc s).2 (seedFieldPerform rc hc s).1
      = some s := by
  have hmark : markFrom rc 0 (s.deck.take rc) =
      (s.deck.take rc).map (fun c => { c with revealed := true }) :=
    markFrom_eq_map rc (s.deck.take rc) 0
      (by have h := List.length_take_le rc s.deck; omega)
  have hdeckn : (s.deck.map cardKey).Nodup := howner.of_append_left
  have hnodup : ((s.deck.take rc).map cardKey).Nodup := by
    have hsub : List.Sublist ((s.deck.take rc).map cardKey)
        (s.deck.map cardKey) := (List.take_sublist rc s.deck).map cardKey
    exact hdeckn.sublist hsub
  have hdisj : ∀ c ∈ s.deck.take rc, ∀ q ∈ s.piles, ∀ c' ∈ q,
      cardKey c ≠ cardKey c' := by
    intro c hcmem q hq c' hc' heq
    have hd := (List.nodup_append.mp howner).2.2
    have h1 : cardKey c ∈ s.deck.map cardKey :=
      List.mem_map_of_mem cardKey (List.mem_of_mem_take hcmem)
    have h2 : cardKey c' ∈ s.piles.flatten.map cardKey :=
      List.mem_map_of_mem cardKey (List.mem_flatten.mpr ⟨q, hq, hc'⟩)
    exact hd h1 (heq ▸ h2)
  have h := seedFieldUnwind_appended s.piles (s.deck.take rc) (s.deck.drop rc)
    hrev hnodup hdisj
  simp only [seedFieldPerform, hmark]
  rw [h, List.take_append_drop]

/-- Witness for the round-trip claim at a concrete two-card deck and a
pre-existing pile. -/
theorem seedField_roundtrip_witness :
    (∀ c ∈ (SFState.deck ⟨[⟨Rank.two, Suit.spring, false⟩,
        ⟨Rank.three, Suit.summer, false⟩],
        [[⟨Rank.king, Suit.winter, true⟩]]⟩).take 1, c.revealed = false) ∧
    ((((⟨[⟨Rank.two, Suit.spring, false⟩, ⟨Rank.three, Suit.summer, false⟩],
        [[⟨Rank.king, Suit.winter, true⟩]]⟩ : SFState)).deck.map cardKey ++
      ((⟨[⟨Rank.two, Suit.spring, false⟩, ⟨Rank.three, Suit.summer, false⟩],
        [[⟨Rank.king, Suit.winter, true⟩]]⟩ : SFState)).piles.flatten.map
        cardKey).Nodup) ∧
    seedFieldUnwind
      (seedFieldPerform 1 7 ⟨[⟨Rank.two, Suit.spring, false⟩,
        ⟨Rank.three, Suit.summer, false⟩],
        [[⟨Rank.king, Suit.winter, true⟩]]⟩).2
      (seedFieldPerform 1 7 ⟨[⟨Rank.two, Suit.spring, false⟩,
        ⟨Rank.three, Suit.summer, false⟩],
        [[⟨Rank.king, Suit.winter, true⟩]]⟩).1
      = some ⟨[⟨Rank.two, Suit.spring, false⟩,
        ⟨Rank.three, Suit.summer, false⟩],
        [[⟨Rank.king, Suit.winter, true⟩]]⟩ :=
  ⟨by decide, by decide,
    seedField_roundtrip 1 7 _ (by decide) (by decide)⟩

/-- Claim C8.  For a 4-player state, `InitialDeal.Perform` mutates
nothing but the pending queue, appending exactly: four `SeedField`
actions (one per field), `DealHand(players[1], 3)`,
`DealHand(players[2], 4)`, `DealHand(players[3], 4)`,
`DealHand(players[0], 4)` (dealer last), one `PlaceOkus` per player,
and one `DealLuminary` per field, in that order. -/
theorem initialDeal_enqueues (gs : DealState) (hp : gs.players.length = 4) :
    initialDealPerform gs =
      { gs with pending := gs.pending ++
        [ActionD.seedField 0, ActionD.seedField 1, ActionD.seedField 2,
         ActionD.seedField 3,
         ActionD.dealHand 1 3, ActionD.dealHand 2 4, ActionD.dealHand 3 4,
         ActionD.dealHand 0 4,
         ActionD.placeOkus 0, ActionD.placeOkus 1, ActionD.placeOkus 2,
         ActionD.placeOkus 3,
         ActionD.dealLuminary 0, ActionD.dealLuminary 1, ActionD.dealLuminary 2,
         ActionD.dealLuminary 3] } := by
  have hr : List.range 4 = [0, 1, 2, 3] := rfl
  simp [initialDealPerform, hp, hr]

/-- Witness for the `InitialDeal` theorem at a concrete 4-player state. -/
theorem initialDeal_enqueues_witness :
    dealDemo.players.length = 4 ∧
    initialDealPerform dealDemo =
      { dealDemo with pending := dealDemo.pending ++
        [ActionD.seedField 0, ActionD.seedField 1, ActionD.seedField 2,
         ActionD.seedField 3,
         ActionD.dealHand 1 3, ActionD.dealHand 2 4, ActionD.dealHand 3 4,
         ActionD.dealHand 0 4,
         ActionD.placeOkus 0, ActionD.placeOkus 1, ActionD.placeOkus 2,
         ActionD.placeOkus 3,
         ActionD.dealLuminary 0, ActionD.dealLuminary 1, ActionD.dealLuminary 2,
         ActionD.dealLuminary 3] } :=
  ⟨rfl, initialDeal_enqueues dealDemo rfl⟩

/-- Claim C9.  While the lockers are non-empty no `ChangeSeason.Perform`
realigns any field; two distinct locking actors must both unwind before
the lockers return to empty (after only one unwind a third actor's
`Perform` still cannot realign); and `Unwind` realigns only when
removing its actor empties the lockers and the target season differed
from the recorded previous season. -/
theorem changeSeason_lock_protocol :
    (∀ (a : CSAction) (s : CSState), s.lockers ≠ [] →
      (csPerform a s).2.seasons = s.seasons) ∧
    (∀ (a1 a2 a3 : CSAction) (s : CSState),
      s.lockers = [] → a1.lockIllimat = true → a2.lockIllimat = true →
      a1.actor ≠ a2.actor →
      ((csPerform a3 (csPerform a2 (csPerform a1 s).2).2).2.seasons
          = (csPerform a2 (csPerform a1 s).2).2.seasons) ∧
      ((csPerform a2 (csPerform a1 s).2).2.lockers.length = 2) ∧
      ((csUnwind (csPerform a2 (csPerform a1 s).2).1
          (csPerform a2 (csPerform a1 s).2).2).lockers ≠ []) ∧
      ((csPerform a3 (csUnwind (csPerform a2 (csPerform a1 s).2).1
          (csPerform a2 (csPerform a1 s).2).2)).2.seasons
        = (csUnwind (csPerform a2 (csPerform a1 s).2).1
            (csPerform a2 (csPerform a1 s).2).2).seasons) ∧
      ((csUnwind (csPerform a1 s).1
          (csUnwind (csPerform a2 (csPerform a1 s).2).1
            (csPerform a2 (csPerform a1 s).2).2)).lockers = [])) ∧
    (∀ (a : CSAction) (s : CSState),
      ((if a.lockIllimat then s.lockers.erase a.actor else s.lockers) ≠ [] ∨
        a.season = a.prevSeason) →
      (csUnwind a s).seasons = s.seasons) := by
  have hstable : ∀ (a : CSAction) (t : CSState), t.lockers ≠ [] →
      (csPerform a t).2.seasons = t.seasons := by
    intro a t h
    simp only [csPerform]
    rw [if_neg h]
  have hunlock : ∀ (a : CSAction) (t : CSState),
      (csUnwind a t).lockers =
        (if a.lockIllimat then t.lockers.erase a.actor else t.lockers) := by
    intro a t
    simp only [csUnwind]
    split <;> split <;> rfl
  have hperfLock : ∀ (a : CSAction) (t : CSState),
      (csPerform a t).2.lockers =
        (if a.lockIllimat then t.lockers ++ [a.actor] else t.lockers) := by
    intro a t
    simp only [csPerform]
    split <;> rfl
  have hperfFst : ∀ (a : CSAction) (t : CSState), t.lockers ≠ [] →
      (csPerform a t).1 = a := by
    intro a t h
    simp only [csPerform]
    rw [if_neg h]
  refine ⟨hstable, ?_, ?_⟩
  · intro a1 a2 a3 s h0 hl1 hl2 hne
    have h1lock : (csPerform a1 s).2.lockers = [a1.actor] := by
      rw [hperfLock, if_pos hl1, h0]
      rfl
    have ha1fst : (csPerform a1 s).1 =
        { a1 with prevSeason := s.seasons.getD a1.fieldIndex Season.spring } := by
      simp only [csPerform]
      rw [if_pos h0]
    have h1ne : (csPerform a1 s).2.lockers ≠ [] := by
      rw [h1lock]
      simp
    have h2lock : (csPerform a2 (csPerform a1 s).2).2.lockers
        = [a1.actor, a2.actor] := by
      rw [hperfLock, if_pos hl2, h1lock]
      rfl
    have h2fst : (csPerform a2 (csPerform a1 s).2).1 = a2 :=
      hperfFst a2 _ h1ne
    have herase : ([a1.actor, a2.actor] : List Nat).erase a2.actor
        = [a1.actor] := by
      rw [List.erase_cons]
      rw [if_neg (by simpa using hne)]
      rw [List.erase_cons]
      simp
    have hu2lock : (csUnwind (csPerform a2 (csPerform a1 s).2).1
        (csPerform a2 (csPerform a1 s).2).2).lockers = [a1.actor] := by
      rw [h2fst, hunlock, if_pos hl2, h2lock, herase]
    have ha1l : (csPerform a1 s).1.lockIllimat = true := by
      rw [ha1fst]
      exact hl1
    have ha1a : (csPerform a1 s).1.actor = a1.actor := by
      rw [ha1fst]
    refine ⟨?_, ?_, ?_, ?_, ?_⟩
    · exact hstable a3 _ (by rw [h2lock]; simp)
    · rw [h2lock]
      rfl
    · rw [hu2lock]
      simp
    · exact hstable a3 _ (by rw [hu2lock]; simp)
    · rw [hunlock, if_pos ha1l, ha1a, hu2lock]
      simp
  · intro a s h
    simp only [csUnwind]
    rw [if_neg (by
      intro hcontra
      rcases h with h | h
      · exact h hcontra.1
      · exact hcontra.2 h)]

/-- Witness for the season-lock theorem: each part applied at concrete
actors and a concrete board. -/
theorem changeSeason_lock_protocol_witness :
    ((⟨[Season.spring, Season.summer, Season.autumn, Season.winter],
        [7]⟩ : CSState).lockers ≠ [] ∧
      (csPerform csDemoA3 ⟨[Season.spring, Season.summer, Season.autumn,
        Season.winter], [7]⟩).2.seasons
        = (⟨[Season.spring, Season.summer, Season.autumn, Season.winter],
            [7]⟩ : CSState).seasons) ∧
    (csDemoState.lockers = [] ∧
      csDemoA1.lockIllimat = true ∧
      csDemoA2.lockIllimat = true ∧
      csDemoA1.actor ≠ csDemoA2.actor ∧
      (((csPerform csDemoA3
            (csPerform csDemoA2 (csPerform csDemoA1 csDemoState).2).2).2.seasons
          = (csPerform csDemoA2 (csPerform csDemoA1 csDemoState).2).2.seasons) ∧
        ((csPerform csDemoA2
            (csPerform csDemoA1 csDemoState).2).2.lockers.length = 2) ∧
        ((csUnwind (csPerform csDemoA2 (csPerform csDemoA1 csDemoState).2).1
            (csPerform csDemoA2 (csPerform csDemoA1 csDemoState).2).2).lockers
          ≠ []) ∧
        ((csPerform csDemoA3
            (csUnwind (csPerform csDemoA2 (csPerform csDemoA1 csDemoState).2).1
              (csPerform csDemoA2
                (csPerform csDemoA1 csDemoState).2).2)).2.seasons
          = (csUnwind (csPerform csDemoA2 (csPerform csDemoA1 csDemoState).2).1
              (csPerform csDemoA2
                (csPerform csDemoA1 csDemoState).2).2).seasons) ∧
        ((csUnwind (csPerform csDemoA1 csDemoState).1
            (csUnwind (csPerform csDemoA2 (csPerform csDemoA1 csDemoState).2).1
              (csPerform csDemoA2
                (csPerform csDemoA1 csDemoState).2).2)).lockers = []))) ∧
    (((if csDemoA1.lockIllimat
        then ([9] : List Nat).erase csDemoA1.actor else [9]) ≠ [] ∨
        csDemoA1.season = csDemoA1.prevSeason) ∧
      (csUnwind csDemoA1 ⟨[Season.spring, Season.summer, Season.autumn,
        Season.winter], [9]⟩).seasons
        = [Season.spring, Season.summer, Season.autumn, Season.winter]) :=
  ⟨⟨by decide, changeSeason_lock_protocol.1 csDemoA3 _ (by decide)⟩,
    ⟨rfl, rfl, rfl, by decide,
      changeSeason_lock_protocol.2.1 csDemoA1 csDemoA2 csDemoA3 csDemoState
        rfl rfl rfl (by decide)⟩,
    ⟨by decide, changeSeason_lock_protocol.2.2 csDemoA1 _ (by decide)⟩⟩

end IllimatSpec
